import Mathlib

/-!
Shallow embedding of the issue detector of `app.py` (repository
`ai_code_review`).  Python strings are modelled as `List Char`; the
detector `detect_issues` is translated line by line from the source:
it splits the input with Python `str.splitlines`, and per 1-based line
runs four independent checks (long line, TODO marker, `print(` usage,
bare `except:` regex), appending one `Issue` per triggered check.
-/

/-- The line-boundary characters of Python `str.splitlines`:
`\n`, `\r` (with `\r\n` counting as a single boundary), `\v`, `\f`,
`\x1c`, `\x1d`, `\x1e`, `\x85`, `U+2028`, `U+2029`. -/
def isLineBoundary (c : Char) : Bool :=
  c = '\n' || c = '\r' || c = '\x0b' || c = '\x0c' ||
  c = '\x1c' || c = '\x1d' || c = '\x1e' || c = '\x85' ||
  c = '\u2028' || c = '\u2029'

/-- Accumulator worker for `splitlines`: `acc` holds the current line,
reversed.  At the end of input the pending line is emitted only when
non-empty, matching Python (`"a\n".splitlines() == ["a"]`,
`"".splitlines() == []`). -/
def splitlinesAux : List Char → List Char → List (List Char)
  | [], acc => if acc.isEmpty then [] else [acc.reverse]
  | '\r' :: '\n' :: rest, acc => acc.reverse :: splitlinesAux rest []
  | c :: rest, acc =>
    if isLineBoundary c then acc.reverse :: splitlinesAux rest []
    else splitlinesAux rest (c :: acc)

/-- Python `text.splitlines()` (no `keepends`), as used at line 21 of
`app.py`. -/
def splitlines (text : List Char) : List (List Char) :=
  splitlinesAux text []

/-- The whitespace class of Python's `re` module for `str` patterns
(`\s`): ASCII whitespace, `\x1c`–`\x1f`, and the Unicode space
characters recognised by `Py_UNICODE_ISSPACE`. -/
def isPySpace (c : Char) : Bool :=
  c = ' ' || c = '\t' || c = '\n' || c = '\r' || c = '\x0b' || c = '\x0c' ||
  c = '\x1c' || c = '\x1d' || c = '\x1e' || c = '\x1f' || c = '\x85' ||
  c = '\xa0' || c = '\u1680' ||
  (0x2000 ≤ c.toNat && c.toNat ≤ 0x200a) ||
  c = '\u2028' || c = '\u2029' || c = '\u202f' || c = '\u205f' || c = '\u3000'

/-- Python `re.match(r"^\s*except\s*:\s*$", line)` viewed as a Bool:
optional whitespace, the literal `except`, optional whitespace, a
colon, optional whitespace, end of line.  (`$` may also match before a
final `\n`, but a final `\n` is consumed by the trailing `\s*` anyway,
so dropping trailing whitespace and requiring emptiness is exact.) -/
def bareExcept (line : List Char) : Bool :=
  let s1 := line.dropWhile isPySpace
  if s1.take 6 = "except".toList then
    let s2 := (s1.drop 6).dropWhile isPySpace
    if s2.take 1 = [':'] then ((s2.drop 1).dropWhile isPySpace).isEmpty
    else false
  else false

/-- The `Issue` dataclass of `app.py`. -/
structure Issue where
  file : List Char
  line : Nat
  category : List Char
  message : List Char
  snippet : List Char
deriving DecidableEq, Repr

/-- The Style message `f"Line length {len(line)} exceeds 120 chars"`. -/
def lengthMessage (n : Nat) : List Char :=
  "Line length ".toList ++ (Nat.repr n).toList ++ " exceeds 120 chars".toList

/-- The body of the `for` loop of `detect_issues` for one line: the four
checks in source order, each appending at most one `Issue`. -/
def lineChecks (filename : List Char) (i : Nat) (line : List Char) : List Issue :=
  (if 120 < line.length then
    [⟨filename, i, "Style".toList, lengthMessage line.length, line⟩] else []) ++
  (if "TODO".toList <:+: line then
    [⟨filename, i, "Maintainability".toList, "TODO left in code".toList, line⟩] else []) ++
  (if "print(".toList <:+: line then
    [⟨filename, i, "BestPractice".toList,
      "Avoid print in library code; prefer logging".toList, line⟩] else []) ++
  (if bareExcept line then
    [⟨filename, i, "ErrorHandling".toList,
      "Bare except detected; catch specific exceptions".toList, line⟩] else [])

/-- Function `detect_issues(filename, text)` of `app.py`: enumerate the
lines of `text.splitlines()` from 1 and run the four checks on each. -/
def detect_issues (filename text : List Char) : List Issue :=
  ((splitlines text).enumFrom 1).flatMap fun p => lineChecks filename p.1 p.2

/-- Recursive reformulation of the enumerated loop of `detect_issues`,
used for induction: process the given lines starting at line number `n`. -/
def detectFrom (f : List Char) (n : Nat) : List (List Char) → List Issue
  | [] => []
  | l :: ls => lineChecks f n l ++ detectFrom f (n + 1) ls

/-- Rank of a category in the fixed source order of the four checks:
Style, Maintainability, BestPractice, ErrorHandling. -/
def catRank (c : List Char) : Nat :=
  if c = "Style".toList then 0
  else if c = "Maintainability".toList then 1
  else if c = "BestPractice".toList then 2
  else 3

/-- Emission order of the detector: ascending line number, and inside one
line the fixed category order given by `catRank`. -/
def issueOrder (a b : Issue) : Prop :=
  a.line < b.line ∨ (a.line = b.line ∧ catRank a.category < catRank b.category)

/-- Worker for `specNewlineSplit`, same accumulator discipline as
`splitlinesAux` but splitting on `\n` only. -/
def specNewlineSplitAux : List Char → List Char → List (List Char)
  | [], acc => if acc.isEmpty then [] else [acc.reverse]
  | c :: rest, acc =>
    if c = '\n' then acc.reverse :: specNewlineSplitAux rest []
    else specNewlineSplitAux rest (c :: acc)

/-- Formalisation of the spec's words, for comparison with the source's
`splitlines`: "it is split into lines using a newline-based split that
does not retain line terminators" — splitting on the newline character
`\n` alone, dropping the terminators and any final empty segment. -/
def specNewlineSplit (text : List Char) : List (List Char) :=
  specNewlineSplitAux text []

/-- A 130-character line containing both `TODO` and `print(`. -/
def line130 : List Char := "TODOprint(".toList ++ List.replicate 120 'a'

/-- The end-to-end example input of the spec. -/
def exampleText : List Char := "x = 1\nprint('debug')  # TODO fix\nexcept:\n".toList

/-- A text with no newline character at all in which `\x1c` (the FILE
SEPARATOR control character, a Python `splitlines` boundary) separates
two bare `except:` handlers. -/
def fsText : List Char := "except:\x1cexcept:".toList

/-! ### Helper lemmas about `lineChecks` -/

/-- Membership in an optional singleton. -/
theorem mem_ite_singleton {α : Type} {c : Prop} [Decidable c] {x y : α}
    (h : y ∈ if c then [x] else ([] : List α)) : c ∧ y = x := by
  by_cases hc : c
  · rw [if_pos hc] at h
    exact ⟨hc, List.mem_singleton.mp h⟩
  · rw [if_neg hc] at h
    exact absurd h (List.not_mem_nil _)

/-- Every issue of `lineChecks f i line` carries `f` as file, `i` as line
number, `line` as snippet, and one of the four fixed categories. -/
theorem mem_lineChecks_fields {f : List Char} {i : Nat} {line : List Char} {iss : Issue}
    (h : iss ∈ lineChecks f i line) :
    iss.file = f ∧ iss.line = i ∧ iss.snippet = line ∧
      (iss.category = "Style".toList ∨ iss.category = "Maintainability".toList ∨
       iss.category = "BestPractice".toList ∨ iss.category = "ErrorHandling".toList) := by
  unfold lineChecks at h
  rw [List.mem_append, List.mem_append, List.mem_append] at h
  rcases h with ((h | h) | h) | h <;> obtain ⟨-, rfl⟩ := mem_ite_singleton h
  · exact ⟨rfl, rfl, rfl, Or.inl rfl⟩
  · exact ⟨rfl, rfl, rfl, Or.inr (Or.inl rfl)⟩
  · exact ⟨rfl, rfl, rfl, Or.inr (Or.inr (Or.inl rfl))⟩
  · exact ⟨rfl, rfl, rfl, Or.inr (Or.inr (Or.inr rfl))⟩

/-- Inside one line the four checks emit in strictly increasing category
rank (the source order Style, Maintainability, BestPractice,
ErrorHandling). -/
theorem lineChecks_pairwise (f : List Char) (i : Nat) (line : List Char) :
    List.Pairwise (fun a b => a.line = b.line ∧ catRank a.category < catRank b.category)
      (lineChecks f i line) := by
  unfold lineChecks
  refine List.pairwise_append.mpr ⟨List.pairwise_append.mpr
    ⟨List.pairwise_append.mpr ⟨?_, ?_, ?_⟩, ?_, ?_⟩, ?_, ?_⟩
  · split <;> simp
  · split <;> simp
  · intro a ha b hb
    obtain ⟨-, rfl⟩ := mem_ite_singleton ha
    obtain ⟨-, rfl⟩ := mem_ite_singleton hb
    exact ⟨rfl, of_decide_eq_true rfl⟩
  · split <;> simp
  · intro a ha b hb
    rw [List.mem_append] at ha
    obtain ⟨-, rfl⟩ := mem_ite_singleton hb
    rcases ha with ha | ha <;> obtain ⟨-, rfl⟩ := mem_ite_singleton ha <;>
      exact ⟨rfl, of_decide_eq_true rfl⟩
  · split <;> simp
  · intro a ha b hb
    rw [List.mem_append, List.mem_append] at ha
    obtain ⟨-, rfl⟩ := mem_ite_singleton hb
    rcases ha with (ha | ha) | ha <;> obtain ⟨-, rfl⟩ := mem_ite_singleton ha <;>
      exact ⟨rfl, of_decide_eq_true rfl⟩

/-! ### Helper lemmas about `detectFrom` -/

/-- The flatMap over `enumFrom` of `detect_issues` is `detectFrom`. -/
theorem detect_issues_eq_detectFrom (f text : List Char) :
    detect_issues f text = detectFrom f 1 (splitlines text) := by
  unfold detect_issues
  generalize splitlines text = ls
  suffices h : ∀ (ls : List (List Char)) (n : Nat),
      (ls.enumFrom n).flatMap (fun p => lineChecks f p.1 p.2) = detectFrom f n ls from
    h ls 1
  intro ls
  induction ls with
  | nil => intro n; rfl
  | cons l ls ih =>
    intro n
    rw [List.enumFrom_cons, List.flatMap_cons, ih (n + 1)]
    rfl

/-- Issues produced from line number `n` onwards have line number at
least `n`. -/
theorem le_line_of_mem_detectFrom {f : List Char} :
    ∀ {ls : List (List Char)} {n : Nat} {iss : Issue},
      iss ∈ detectFrom f n ls → n ≤ iss.line := by
  intro ls
  induction ls with
  | nil => intro n iss h; exact absurd h (List.not_mem_nil _)
  | cons l ls ih =>
    intro n iss h
    rw [show detectFrom f n (l :: ls) = lineChecks f n l ++ detectFrom f (n + 1) ls from rfl,
      List.mem_append] at h
    rcases h with h | h
    · have := (mem_lineChecks_fields h).2.1
      omega
    · have := ih h
      omega

/-- Every issue of `detectFrom` comes from the check run of its own line. -/
theorem mem_detectFrom {f : List Char} :
    ∀ {ls : List (List Char)} {n : Nat} {iss : Issue}, iss ∈ detectFrom f n ls →
      n ≤ iss.line ∧ iss.line - n < ls.length ∧
        iss ∈ lineChecks f iss.line (ls.getD (iss.line - n) []) := by
  intro ls
  induction ls with
  | nil => intro n iss h; exact absurd h (List.not_mem_nil _)
  | cons l ls ih =>
    intro n iss h
    rw [show detectFrom f n (l :: ls) = lineChecks f n l ++ detectFrom f (n + 1) ls from rfl,
      List.mem_append] at h
    rcases h with h | h
    · have hline := (mem_lineChecks_fields h).2.1
      subst hline
      refine ⟨le_refl _, by simp, ?_⟩
      rw [Nat.sub_self, List.getD_cons_zero]
      exact h
    · obtain ⟨h1, h2, h3⟩ := ih h
      refine ⟨by omega, by simp; omega, ?_⟩
      have heq : iss.line - n = (iss.line - (n + 1)) + 1 := by omega
      rw [heq, List.getD_cons_succ]
      exact h3

/-- The detector emits in ascending line order and, inside a line, in
the fixed category order. -/
theorem detectFrom_pairwise (f : List Char) :
    ∀ (ls : List (List Char)) (n : Nat), List.Pairwise issueOrder (detectFrom f n ls) := by
  intro ls
  induction ls with
  | nil => intro n; exact List.Pairwise.nil
  | cons l ls ih =>
    intro n
    rw [show detectFrom f n (l :: ls) = lineChecks f n l ++ detectFrom f (n + 1) ls from rfl]
    refine List.pairwise_append.mpr ⟨?_, ih (n + 1), ?_⟩
    · exact (lineChecks_pairwise f n l).imp fun h => Or.inr h
    · intro a ha b hb
      have h1 := (mem_lineChecks_fields ha).2.1
      have h2 := le_line_of_mem_detectFrom hb
      exact Or.inl (by omega)

/-! ### Filter lemmas: selecting the findings of one line / one category -/

/-- Filtering an optional singleton. -/
theorem filter_ite_singleton {α : Type} (p : α → Bool) (c : Prop) [Decidable c] (x : α) :
    List.filter p (if c then [x] else []) = if c ∧ p x = true then [x] else [] := by
  by_cases hc : c <;> by_cases hp : p x = true <;> simp [hc, hp]

/-- The empty line triggers none of the four checks. -/
theorem lineChecks_nil (f : List Char) (j : Nat) : lineChecks f j [] = [] := rfl

/-- The findings with line number `i` are exactly the output of the check
run on the `i`-th line (counting from `n`), and there are none when `i`
is outside the scanned range. -/
theorem filter_line_detectFrom (f : List Char) :
    ∀ (ls : List (List Char)) (n i : Nat),
      (detectFrom f n ls).filter (fun iss => iss.line == i) =
        if n ≤ i ∧ i - n < ls.length then lineChecks f i (ls.getD (i - n) []) else [] := by
  intro ls
  induction ls with
  | nil =>
    intro n i
    rw [if_neg (by simp)]
    rfl
  | cons l ls ih =>
    intro n i
    rw [show detectFrom f n (l :: ls) = lineChecks f n l ++ detectFrom f (n + 1) ls from rfl,
      List.filter_append, ih (n + 1) i]
    by_cases hin : i = n
    · subst hin
      rw [List.filter_eq_self.mpr (fun a ha => by
          rw [(mem_lineChecks_fields ha).2.1]; simp),
        if_neg (by omega), if_pos (by constructor <;> simp), Nat.sub_self,
        List.getD_cons_zero, List.append_nil]
    · rw [List.filter_eq_nil_iff.mpr (fun a ha => by
          rw [(mem_lineChecks_fields ha).2.1]
          simp only [beq_iff_eq]
          omega), List.nil_append]
      by_cases hc : n + 1 ≤ i ∧ i - (n + 1) < ls.length
      · rw [if_pos hc, if_pos (by simp; omega)]
        have heq : i - n = (i - (n + 1)) + 1 := by omega
        rw [heq, List.getD_cons_succ]
      · rw [if_neg hc, if_neg (by simp; omega)]

/-- The findings of `detect_issues` with line number `i + 1` are exactly
the output of the four checks on the `i`-th (0-based) line of the split
text; an out-of-range index yields the empty line, which triggers
nothing. -/
theorem filter_line_detect (f text : List Char) (i : Nat) :
    (detect_issues f text).filter (fun iss => iss.line == i + 1) =
      lineChecks f (i + 1) ((splitlines text).getD i []) := by
  rw [detect_issues_eq_detectFrom, filter_line_detectFrom]
  by_cases h : i < (splitlines text).length
  · rw [if_pos (by omega), Nat.add_sub_cancel]
  · rw [if_neg (by omega), List.getD_eq_default _ _ (by omega), lineChecks_nil]

/-- Restriction of the line filter to one category. -/
theorem filter_line_cat_detect (f text : List Char) (i : Nat) (C : List Char) :
    (detect_issues f text).filter (fun iss => iss.line == i + 1 && iss.category == C) =
      (lineChecks f (i + 1) ((splitlines text).getD i [])).filter
        (fun iss => iss.category == C) := by
  rw [← filter_line_detect f text i, List.filter_filter]
  exact List.filter_congr fun a _ => Bool.and_comm _ _

/-- The Style findings of one check run. -/
theorem filter_style_lineChecks (f : List Char) (i : Nat) (line : List Char) :
    (lineChecks f i line).filter (fun iss => iss.category == "Style".toList) =
      if 120 < line.length then
        [⟨f, i, "Style".toList, lengthMessage line.length, line⟩] else [] := by
  unfold lineChecks
  rw [List.filter_append, List.filter_append, List.filter_append,
    filter_ite_singleton, filter_ite_singleton, filter_ite_singleton, filter_ite_singleton]
  simp +decide

/-- The Maintainability findings of one check run. -/
theorem filter_maint_lineChecks (f : List Char) (i : Nat) (line : List Char) :
    (lineChecks f i line).filter (fun iss => iss.category == "Maintainability".toList) =
      if "TODO".toList <:+: line then
        [⟨f, i, "Maintainability".toList, "TODO left in code".toList, line⟩] else [] := by
  unfold lineChecks
  rw [List.filter_append, List.filter_append, List.filter_append,
    filter_ite_singleton, filter_ite_singleton, filter_ite_singleton, filter_ite_singleton]
  simp +decide

/-- The BestPractice findings of one check run. -/
theorem filter_bp_lineChecks (f : List Char) (i : Nat) (line : List Char) :
    (lineChecks f i line).filter (fun iss => iss.category == "BestPractice".toList) =
      if "print(".toList <:+: line then
        [⟨f, i, "BestPractice".toList,
          "Avoid print in library code; prefer logging".toList, line⟩] else [] := by
  unfold lineChecks
  rw [List.filter_append, List.filter_append, List.filter_append,
    filter_ite_singleton, filter_ite_singleton, filter_ite_singleton, filter_ite_singleton]
  simp +decide

/-- The ErrorHandling findings of one check run. -/
theorem filter_eh_lineChecks (f : List Char) (i : Nat) (line : List Char) :
    (lineChecks f i line).filter (fun iss => iss.category == "ErrorHandling".toList) =
      if bareExcept line then
        [⟨f, i, "ErrorHandling".toList,
          "Bare except detected; catch specific exceptions".toList, line⟩] else [] := by
  unfold lineChecks
  rw [List.filter_append, List.filter_append, List.filter_append,
    filter_ite_singleton, filter_ite_singleton, filter_ite_singleton, filter_ite_singleton]
  simp +decide

/-! ### The split: agreement with the spec's newline split, and
terminator-freeness of the produced lines -/

set_option maxHeartbeats 1000000 in
/-- Worker version: when every line-boundary character occurring in the
input is `\n`, the source's split agrees with the spec's newline-based
split. -/
theorem splitlinesAux_eq_specAux :
    ∀ (cs acc : List Char), (∀ c ∈ cs, isLineBoundary c = true → c = '\n') →
      splitlinesAux cs acc = specNewlineSplitAux cs acc := by
  intro cs acc
  induction cs, acc using splitlinesAux.induct with
  | case1 acc h1 => intro _; rfl
  | case2 acc h1 => intro _; rfl
  | case3 rest acc ih =>
    intro h
    exact absurd (h '\r' (List.mem_cons_self _ _) (by decide)) (by decide)
  | case4 c rest acc hfall hb ih =>
    intro h
    have hc : c = '\n' := h c (List.mem_cons_self _ _) hb
    subst hc
    rw [splitlinesAux.eq_3 _ _ _ hfall, if_pos (by decide),
      specNewlineSplitAux.eq_2, if_pos rfl,
      ih fun x hx hbx => h x (List.mem_cons_of_mem _ hx) hbx]
  | case5 c rest acc hfall hb ih =>
    intro h
    have hc : ¬c = '\n' := fun hcc => hb (by rw [hcc]; decide)
    rw [splitlinesAux.eq_3 _ _ _ hfall, if_neg hb,
      specNewlineSplitAux.eq_2, if_neg hc,
      ih fun x hx hbx => h x (List.mem_cons_of_mem _ hx) hbx]

/-- When the only line-boundary character of the text is `\n`, the
source's `splitlines` is exactly the spec's newline-based split. -/
theorem splitlines_eq_specNewlineSplit (text : List Char)
    (h : ∀ c ∈ text, isLineBoundary c = true → c = '\n') :
    splitlines text = specNewlineSplit text :=
  splitlinesAux_eq_specAux text [] h

set_option maxHeartbeats 1000000 in
/-- Worker version: the split retains no line terminators. -/
theorem no_boundary_in_splitlinesAux :
    ∀ (cs acc : List Char), (∀ c ∈ acc, isLineBoundary c = false) →
      ∀ line ∈ splitlinesAux cs acc, ∀ c ∈ line, isLineBoundary c = false := by
  intro cs acc
  induction cs, acc using splitlinesAux.induct with
  | case1 acc h1 =>
    intro hacc line hline
    rw [splitlinesAux.eq_1, if_pos h1] at hline
    exact absurd hline (List.not_mem_nil _)
  | case2 acc h1 =>
    intro hacc line hline
    rw [splitlinesAux.eq_1, if_neg h1] at hline
    rw [List.mem_singleton] at hline
    subst hline
    intro c hc
    exact hacc c (List.mem_reverse.mp hc)
  | case3 rest acc ih =>
    intro hacc line hline
    rw [splitlinesAux.eq_2] at hline
    rcases List.mem_cons.mp hline with h | h
    · subst h
      intro c hc
      exact hacc c (List.mem_reverse.mp hc)
    · exact ih (fun x hx => absurd hx (List.not_mem_nil _)) line h
  | case4 c rest acc hfall hb ih =>
    intro hacc line hline
    rw [splitlinesAux.eq_3 _ _ _ hfall, if_pos hb] at hline
    rcases List.mem_cons.mp hline with h | h
    · subst h
      intro x hx
      exact hacc x (List.mem_reverse.mp hx)
    · exact ih (fun x hx => absurd hx (List.not_mem_nil _)) line h
  | case5 c rest acc hfall hb ih =>
    intro hacc line hline
    rw [splitlinesAux.eq_3 _ _ _ hfall, if_neg hb] at hline
    refine ih ?_ line hline
    intro x hx
    rcases List.mem_cons.mp hx with h | h
    · subst h
      simpa using hb
    · exact hacc x h

/-- The lines produced by `splitlines` contain no line-boundary
character: the split does not retain line terminators. -/
theorem no_boundary_in_splitlines {text line : List Char} (hline : line ∈ splitlines text)
    {c : Char} (hc : c ∈ line) : isLineBoundary c = false :=
  no_boundary_in_splitlinesAux text [] (fun _ hx => absurd hx (List.not_mem_nil _))
    line hline c hc

/-! ### Characterisation of the bare-except regex -/

/-- Dropping-while skips a leading block of satisfying elements. -/
theorem dropWhile_append_of_forall {α : Type} {p : α → Bool} :
    ∀ {w rest : List α}, (∀ c ∈ w, p c = true) →
      List.dropWhile p (w ++ rest) = List.dropWhile p rest := by
  intro w
  induction w with
  | nil => intro rest _; rfl
  | cons c w ih =>
    intro rest h
    rw [List.cons_append, List.dropWhile_cons, if_pos (h c (List.mem_cons_self _ _))]
    exact ih fun x hx => h x (List.mem_cons_of_mem _ hx)

/-- The regex `^\s*except\s*:\s*$` of the source matches exactly the
lines that decompose as whitespace, the keyword `except`, whitespace, a
colon, and trailing whitespace — the spec's "entire line, ignoring
leading/trailing whitespace: the keyword introducing an exception
handler, followed only by whitespace and the block-opening colon". -/
theorem bareExcept_iff (l : List Char) :
    bareExcept l = true ↔
      ∃ w1 w2 w3 : List Char,
        (∀ c ∈ w1, isPySpace c = true) ∧ (∀ c ∈ w2, isPySpace c = true) ∧
        (∀ c ∈ w3, isPySpace c = true) ∧
        l = w1 ++ "except".toList ++ w2 ++ [':'] ++ w3 := by
  constructor
  · intro h
    simp only [bareExcept] at h
    by_cases h6 : (l.dropWhile isPySpace).take 6 = "except".toList
    swap
    · rw [if_neg h6] at h
      exact Bool.noConfusion h
    rw [if_pos h6] at h
    by_cases hcolon :
        (((l.dropWhile isPySpace).drop 6).dropWhile isPySpace).take 1 = [':']
    swap
    · rw [if_neg hcolon] at h
      exact Bool.noConfusion h
    rw [if_pos hcolon] at h
    set w3v := (((l.dropWhile isPySpace).drop 6).dropWhile isPySpace).drop 1 with hw3v
    refine ⟨l.takeWhile isPySpace, ((l.dropWhile isPySpace).drop 6).takeWhile isPySpace,
      w3v, fun c hc => List.mem_takeWhile_imp hc, fun c hc => List.mem_takeWhile_imp hc,
      ?_, ?_⟩
    · exact List.dropWhile_eq_nil_iff.mp (List.isEmpty_iff.mp h)
    · have e2 : l.dropWhile isPySpace =
          "except".toList ++ (l.dropWhile isPySpace).drop 6 := by
        conv_lhs => rw [← List.take_append_drop 6 (l.dropWhile isPySpace)]
        rw [h6]
      have e4 : ((l.dropWhile isPySpace).drop 6).dropWhile isPySpace = [':'] ++ w3v := by
        conv_lhs =>
          rw [← List.take_append_drop 1 (((l.dropWhile isPySpace).drop 6).dropWhile isPySpace)]
        rw [hcolon, ← hw3v]
      have e3 : (l.dropWhile isPySpace).drop 6 =
          ((l.dropWhile isPySpace).drop 6).takeWhile isPySpace ++ ([':'] ++ w3v) := by
        conv_lhs =>
          rw [← List.takeWhile_append_dropWhile isPySpace ((l.dropWhile isPySpace).drop 6)]
        rw [e4]
      conv_lhs => rw [← List.takeWhile_append_dropWhile isPySpace l, e2, e3]
      simp [List.append_assoc]
  · rintro ⟨w1, w2, w3, hw1, hw2, hw3, rfl⟩
    simp only [bareExcept]
    have hd1 : List.dropWhile isPySpace (w1 ++ "except".toList ++ w2 ++ [':'] ++ w3) =
        "except".toList ++ (w2 ++ ([':'] ++ w3)) := by
      rw [List.append_assoc, List.append_assoc, List.append_assoc,
        dropWhile_append_of_forall hw1,
        show ("except".toList : List Char) = 'e' :: "xcept".toList from rfl,
        List.cons_append, List.dropWhile_cons, if_neg (by decide)]
    have ht : List.take 6 ("except".toList ++ (w2 ++ ([':'] ++ w3))) = "except".toList :=
      List.take_left' rfl
    have hd : List.drop 6 ("except".toList ++ (w2 ++ ([':'] ++ w3))) = w2 ++ ([':'] ++ w3) :=
      List.drop_left' rfl
    rw [hd1, if_pos ht, hd,
      dropWhile_append_of_forall hw2, List.singleton_append,
      List.dropWhile_cons, if_neg (by decide : ¬(isPySpace ':' = true)),
      if_pos (by rfl : ((':' :: w3).take 1 = [':'])),
      show (':' :: w3).drop 1 = w3 from rfl,
      List.dropWhile_eq_nil_iff.mpr hw3]
    rfl


/-! ### Counting findings per line and per category -/

/-- One line triggers at most four findings. -/
theorem lineChecks_length_le (f : List Char) (i : Nat) (line : List Char) :
    (lineChecks f i line).length ≤ 4 := by
  unfold lineChecks
  rw [List.length_append, List.length_append, List.length_append]
  split <;> split <;> split <;> split <;> simp

/-- At most four findings carry any given line number. -/
theorem countP_line_le (f text : List Char) (i : Nat) :
    (detect_issues f text).countP (fun iss => iss.line == i) ≤ 4 := by
  rw [List.countP_eq_length_filter]
  cases i with
  | zero =>
    rw [List.filter_eq_nil_iff.mpr ?_]
    · simp
    · intro a ha
      rw [detect_issues_eq_detectFrom] at ha
      have h1 := le_line_of_mem_detectFrom ha
      simp only [beq_iff_eq]
      omega
  | succ j =>
    rw [filter_line_detect]
    exact lineChecks_length_le _ _ _

/-- At most one finding carries any given line number and (legal)
category. -/
theorem countP_line_cat_le (f text : List Char) (i : Nat) (C : List Char)
    (hC : C = "Style".toList ∨ C = "Maintainability".toList ∨
      C = "BestPractice".toList ∨ C = "ErrorHandling".toList) :
    (detect_issues f text).countP (fun iss => iss.line == i && iss.category == C) ≤ 1 := by
  rw [List.countP_eq_length_filter]
  cases i with
  | zero =>
    rw [List.filter_eq_nil_iff.mpr ?_]
    · simp
    · intro a ha
      rw [detect_issues_eq_detectFrom] at ha
      have h1 := le_line_of_mem_detectFrom ha
      simp only [Bool.and_eq_true, beq_iff_eq]
      intro hcon
      omega
  | succ j =>
    rcases hC with rfl | rfl | rfl | rfl
    · rw [filter_line_cat_detect, filter_style_lineChecks]
      split <;> simp
    · rw [filter_line_cat_detect, filter_maint_lineChecks]
      split <;> simp
    · rw [filter_line_cat_detect, filter_bp_lineChecks]
      split <;> simp
    · rw [filter_line_cat_detect, filter_eh_lineChecks]
      split <;> simp

/-! ### Claim theorems -/

set_option maxRecDepth 20000 in
/-- C1: For every input text, the findings of `detect_issues` are ordered
by ascending line number, and among the findings of one line the
categories appear in the fixed order Style, Maintainability,
BestPractice, ErrorHandling; in particular the 130-character line
`line130`, which contains both `TODO` and `print(`, yields exactly the
three findings Style, Maintainability, BestPractice for its line
number 1, in that category order. -/
theorem detect_issues_ordered :
    (∀ f text : List Char, List.Pairwise issueOrder (detect_issues f text)) ∧
    detect_issues "uploaded_code.py".toList line130 =
      [⟨"uploaded_code.py".toList, 1, "Style".toList, lengthMessage 130, line130⟩,
       ⟨"uploaded_code.py".toList, 1, "Maintainability".toList,
         "TODO left in code".toList, line130⟩,
       ⟨"uploaded_code.py".toList, 1, "BestPractice".toList,
         "Avoid print in library code; prefer logging".toList, line130⟩] := by
  refine ⟨?_, by decide⟩
  intro f text
  rw [detect_issues_eq_detectFrom]
  exact detectFrom_pairwise f (splitlines text) 1

set_option maxRecDepth 20000 in
/-- C2: a line yields a Style finding iff its character count exceeds
120, and that finding is unique, with message exactly
`Line length {len} exceeds 120 chars` for the exact count; in
particular 120 identical characters yield nothing and 121 yield exactly
one Style finding with count 121. -/
theorem style_rule :
    (∀ (f text : List Char) (i : Nat),
      (detect_issues f text).filter
          (fun iss => iss.line == i + 1 && iss.category == "Style".toList) =
        if 120 < ((splitlines text).getD i []).length then
          [⟨f, i + 1, "Style".toList, lengthMessage ((splitlines text).getD i []).length,
            (splitlines text).getD i []⟩]
        else []) ∧
    detect_issues "uploaded_code.py".toList (List.replicate 120 'a') = [] ∧
    detect_issues "uploaded_code.py".toList (List.replicate 121 'a') =
      [⟨"uploaded_code.py".toList, 1, "Style".toList, lengthMessage 121,
        List.replicate 121 'a'⟩] := by
  refine ⟨?_, by decide, by decide⟩
  intro f text i
  rw [filter_line_cat_detect, filter_style_lineChecks]

/-- C3: a line yields a Maintainability finding iff the substring `TODO`
occurs anywhere in it (case-sensitive, no word boundary, also inside
identifiers), the finding is unique and carries the fixed message
`TODO left in code`; a lower-case `todo` is not matched, and `TODO`
inside an identifier is. -/
theorem todo_rule :
    (∀ (f text : List Char) (i : Nat),
      (detect_issues f text).filter
          (fun iss => iss.line == i + 1 && iss.category == "Maintainability".toList) =
        if "TODO".toList <:+: (splitlines text).getD i [] then
          [⟨f, i + 1, "Maintainability".toList, "TODO left in code".toList,
            (splitlines text).getD i []⟩]
        else []) ∧
    detect_issues "uploaded_code.py".toList "myTODOvar = 2".toList =
      [⟨"uploaded_code.py".toList, 1, "Maintainability".toList,
        "TODO left in code".toList, "myTODOvar = 2".toList⟩] ∧
    detect_issues "uploaded_code.py".toList "# todo later".toList = [] := by
  refine ⟨?_, by decide, by decide⟩
  intro f text i
  rw [filter_line_cat_detect, filter_maint_lineChecks]

/-- C4: a line yields a BestPractice finding iff the substring `print(`
occurs anywhere in it — with no lexical awareness, also inside string
literals or comments — and the finding is unique. -/
theorem print_rule :
    (∀ (f text : List Char) (i : Nat),
      (detect_issues f text).filter
          (fun iss => iss.line == i + 1 && iss.category == "BestPractice".toList) =
        if "print(".toList <:+: (splitlines text).getD i [] then
          [⟨f, i + 1, "BestPractice".toList,
            "Avoid print in library code; prefer logging".toList,
            (splitlines text).getD i []⟩]
        else []) ∧
    detect_issues "uploaded_code.py".toList "s = \"print(hello)\"".toList =
      [⟨"uploaded_code.py".toList, 1, "BestPractice".toList,
        "Avoid print in library code; prefer logging".toList,
        "s = \"print(hello)\"".toList⟩] := by
  refine ⟨?_, by decide⟩
  intro f text i
  rw [filter_line_cat_detect, filter_bp_lineChecks]

/-- C5: a line yields an ErrorHandling finding iff, ignoring leading and
trailing whitespace, it is exactly the keyword `except` followed only by
whitespace and a colon; the finding is unique.  `  except:  ` is
matched; `except ValueError:` and a line merely containing the word
`except` are not. -/
theorem bare_except_rule :
    (∀ (f text : List Char) (i : Nat),
      (detect_issues f text).filter
          (fun iss => iss.line == i + 1 && iss.category == "ErrorHandling".toList) =
        if bareExcept ((splitlines text).getD i []) then
          [⟨f, i + 1, "ErrorHandling".toList,
            "Bare except detected; catch specific exceptions".toList,
            (splitlines text).getD i []⟩]
        else []) ∧
    (∀ l : List Char, bareExcept l = true ↔
      ∃ w1 w2 w3 : List Char,
        (∀ c ∈ w1, isPySpace c = true) ∧ (∀ c ∈ w2, isPySpace c = true) ∧
        (∀ c ∈ w3, isPySpace c = true) ∧
        l = w1 ++ "except".toList ++ w2 ++ [':'] ++ w3) ∧
    detect_issues "uploaded_code.py".toList "  except:  ".toList =
      [⟨"uploaded_code.py".toList, 1, "ErrorHandling".toList,
        "Bare except detected; catch specific exceptions".toList, "  except:  ".toList⟩] ∧
    detect_issues "uploaded_code.py".toList "except ValueError:".toList = [] ∧
    detect_issues "uploaded_code.py".toList "foo_except = 1".toList = [] := by
  refine ⟨?_, bareExcept_iff, by decide, by decide, by decide⟩
  intro f text i
  rw [filter_line_cat_detect, filter_eh_lineChecks]

/-- C6 counterexample: `fsText` contains no newline character (neither
`\n` nor `\r`), so it is a single newline-delimited segment, yet the
detector scans two lines and reports findings at line numbers 1 and 2:
Python `splitlines` also splits on `\x1c`. -/
theorem newline_segments_cex :
    fsText.contains '\n' = false ∧ fsText.contains '\r' = false ∧
    (specNewlineSplit fsText).length = 1 ∧ (splitlines fsText).length = 2 ∧
    detect_issues "uploaded_code.py".toList fsText =
      [⟨"uploaded_code.py".toList, 1, "ErrorHandling".toList,
        "Bare except detected; catch specific exceptions".toList, "except:".toList⟩,
       ⟨"uploaded_code.py".toList, 2, "ErrorHandling".toList,
        "Bare except detected; catch specific exceptions".toList, "except:".toList⟩] := by
  decide

/-- C6 (amended): on texts whose only line-boundary characters are `\n`
the number of lines scanned equals the number of newline-delimited
segments (the two splits agree outright); the split never retains a
line-terminator character; and the empty input yields the empty finding
sequence.  (Unamended, the claim fails: Python `splitlines` also splits
on `\r`, `\v`, `\f`, `\x1c`, `\x1d`, `\x1e`, `\x85`, `U+2028`,
`U+2029`.) -/
theorem newline_split_amended :
    (∀ text : List Char, (∀ c ∈ text, isLineBoundary c = true → c = '\n') →
      splitlines text = specNewlineSplit text) ∧
    (∀ text line : List Char, line ∈ splitlines text →
      ∀ c ∈ line, isLineBoundary c = false) ∧
    (∀ f : List Char, detect_issues f [] = []) := by
  refine ⟨splitlines_eq_specNewlineSplit, ?_, fun f => rfl⟩
  intro text line h c hc
  exact no_boundary_in_splitlines h hc

/-- Witness for C6 (amended) at the concrete text `a\nb`. -/
theorem newline_split_amended_witness :
    splitlines "a\nb".toList = specNewlineSplit "a\nb".toList :=
  newline_split_amended.1 "a\nb".toList (by decide)

/-- C7: the detector is deterministic — it is a pure function of its
input, so equal inputs give equal finding sequences. -/
theorem detect_issues_deterministic (f t1 t2 : List Char) (h : t1 = t2) :
    detect_issues f t1 = detect_issues f t2 := by
  rw [h]

/-- Witness for C7 at the example input. -/
theorem detect_issues_deterministic_witness :
    detect_issues "uploaded_code.py".toList exampleText =
      detect_issues "uploaded_code.py".toList exampleText :=
  detect_issues_deterministic "uploaded_code.py".toList exampleText exampleText rfl

/-- C8: every emitted finding's file is the filename argument and its
snippet is exactly the original text of its triggering line — the
0-based entry `line - 1` of the split text, untrimmed and untruncated. -/
theorem snippet_and_file_exact (f text : List Char) (iss : Issue)
    (h : iss ∈ detect_issues f text) :
    iss.file = f ∧ iss.snippet = (splitlines text).getD (iss.line - 1) [] := by
  rw [detect_issues_eq_detectFrom] at h
  obtain ⟨-, -, h3⟩ := mem_detectFrom h
  obtain ⟨h4, -, h5, -⟩ := mem_lineChecks_fields h3
  exact ⟨h4, h5⟩

/-- Witness for C8 at the finding of the line `  except:  `. -/
theorem snippet_and_file_exact_witness :
    (⟨"uploaded_code.py".toList, 1, "ErrorHandling".toList,
      "Bare except detected; catch specific exceptions".toList,
      "  except:  ".toList⟩ : Issue).file = "uploaded_code.py".toList ∧
    (⟨"uploaded_code.py".toList, 1, "ErrorHandling".toList,
      "Bare except detected; catch specific exceptions".toList,
      "  except:  ".toList⟩ : Issue).snippet =
        (splitlines "  except:  ".toList).getD 0 [] :=
  snippet_and_file_exact "uploaded_code.py".toList "  except:  ".toList
    ⟨"uploaded_code.py".toList, 1, "ErrorHandling".toList,
      "Bare except detected; catch specific exceptions".toList, "  except:  ".toList⟩
    (by decide)

/-- C9 counterexample: on the example input the detector does not return
four findings. -/
theorem example_total_cex :
    ¬(detect_issues "uploaded_code.py".toList exampleText).length = 4 := by
  decide

/-- C9 (amended): the example input yields exactly three findings — at
line 2 a Maintainability (TODO) and a BestPractice (print) finding, at
line 3 an ErrorHandling (bare except) finding — and none at line 1. -/
theorem example_end_to_end :
    detect_issues "uploaded_code.py".toList exampleText =
      [⟨"uploaded_code.py".toList, 2, "Maintainability".toList,
        "TODO left in code".toList, "print('debug')  # TODO fix".toList⟩,
       ⟨"uploaded_code.py".toList, 2, "BestPractice".toList,
         "Avoid print in library code; prefer logging".toList,
         "print('debug')  # TODO fix".toList⟩,
       ⟨"uploaded_code.py".toList, 3, "ErrorHandling".toList,
         "Bare except detected; catch specific exceptions".toList,
         "except:".toList⟩] := by
  decide

/-- C10: every finding has a line number between 1 and the number of
split lines and one of the four fixed categories; a line contributes at
most one finding per category, and at most four findings in total. -/
theorem findings_invariant :
    (∀ (f text : List Char) (iss : Issue), iss ∈ detect_issues f text →
      1 ≤ iss.line ∧ iss.line ≤ (splitlines text).length ∧
        (iss.category = "Style".toList ∨ iss.category = "Maintainability".toList ∨
         iss.category = "BestPractice".toList ∨ iss.category = "ErrorHandling".toList)) ∧
    (∀ (f text : List Char) (i : Nat) (C : List Char),
      (C = "Style".toList ∨ C = "Maintainability".toList ∨
        C = "BestPractice".toList ∨ C = "ErrorHandling".toList) →
      (detect_issues f text).countP
        (fun iss => iss.line == i && iss.category == C) ≤ 1) ∧
    (∀ (f text : List Char) (i : Nat),
      (detect_issues f text).countP (fun iss => iss.line == i) ≤ 4) := by
  refine ⟨?_, countP_line_cat_le, countP_line_le⟩
  intro f text iss h
  rw [detect_issues_eq_detectFrom] at h
  obtain ⟨h1, h2, h3⟩ := mem_detectFrom h
  exact ⟨h1, by omega, (mem_lineChecks_fields h3).2.2.2⟩

/-- Witness for C10 at the ErrorHandling finding of the example input. -/
theorem findings_invariant_witness :
    1 ≤ (⟨"uploaded_code.py".toList, 3, "ErrorHandling".toList,
      "Bare except detected; catch specific exceptions".toList,
      "except:".toList⟩ : Issue).line ∧
    (⟨"uploaded_code.py".toList, 3, "ErrorHandling".toList,
      "Bare except detected; catch specific exceptions".toList,
      "except:".toList⟩ : Issue).line ≤ (splitlines exampleText).length ∧
    ((⟨"uploaded_code.py".toList, 3, "ErrorHandling".toList,
      "Bare except detected; catch specific exceptions".toList,
      "except:".toList⟩ : Issue).category = "Style".toList ∨
     (⟨"uploaded_code.py".toList, 3, "ErrorHandling".toList,
      "Bare except detected; catch specific exceptions".toList,
      "except:".toList⟩ : Issue).category = "Maintainability".toList ∨
     (⟨"uploaded_code.py".toList, 3, "ErrorHandling".toList,
      "Bare except detected; catch specific exceptions".toList,
      "except:".toList⟩ : Issue).category = "BestPractice".toList ∨
     (⟨"uploaded_code.py".toList, 3, "ErrorHandling".toList,
      "Bare except detected; catch specific exceptions".toList,
      "except:".toList⟩ : Issue).category = "ErrorHandling".toList) :=
  findings_invariant.1 "uploaded_code.py".toList exampleText
    ⟨"uploaded_code.py".toList, 3, "ErrorHandling".toList,
      "Bare except detected; catch specific exceptions".toList, "except:".toList⟩
    (by decide)
